import Mathlib

/-!
Verification of the burn-on-read service core against its specification.

The development shallowly embeds the three source modules:

* `src/utils/sanitize.ts` — `sanitizeInput`, `validateMessage`;
* `src/utils/fileManager.ts` — `saveMessage`, `readAndDeleteMessage`,
  `isValidMessageId`;
* `src/routes/index.ts` — the `POST /create` and `GET /message/:id` handlers.

The filesystem backing medium is modelled as an association list from full
path strings to file contents, together with a set of paths on which the
medium rejects read/unlink operations (modelling `EACCES`-style failures
that the source's `try`/`catch` swallows).  Strings are Lean `String`s and
all list-level operations are written as structural recursions so that
every statement about a concrete input can be settled by `decide`.
-/

namespace BurnOnRead

/-! ## Embedded definitions -/

/-- Whitespace characters removed by JavaScript `String.prototype.trim`
(space, tab, line feed, carriage return, vertical tab, form feed,
no-break space). -/
def jsWhitespace (c : Char) : Bool :=
  c = ' ' || c = '\t' || c = '\n' || c = '\r' ||
  c = Char.ofNat 11 || c = Char.ofNat 12 || c = Char.ofNat 0xA0

/-- Drop whitespace from both ends of a character list. -/
def trimList (l : List Char) : List Char :=
  ((l.dropWhile jsWhitespace).reverse.dropWhile jsWhitespace).reverse

/-- Model of JavaScript `input.trim()` as used by `sanitizeInput` and
`validateMessage`. -/
def jsTrim (s : String) : String :=
  String.mk (trimList s.data)

/-- Modelled from the spec: the escaping performed by the external
`validator.escape` library call in `sanitizeInput` (the library itself is
not part of the repository).  Per the spec, every occurrence of a
markup-significant character (`&`, `<`, `>`, quote characters, slash,
backslash, backtick) is replaced by its HTML-entity encoding; all other
characters pass through unchanged.  The sequential global replacements of
the library (ampersand first) are equivalent to this character-wise map
because no entity string contains a character that a later replacement
pass rewrites. -/
def escapeChar (c : Char) : List Char :=
  if c = '&' then "&amp;".data
  else if c = '"' then "&quot;".data
  else if c = Char.ofNat 39 then "&#x27;".data
  else if c = '<' then "&lt;".data
  else if c = '>' then "&gt;".data
  else if c = '/' then "&#x2F;".data
  else if c = Char.ofNat 92 then "&#x5C;".data
  else if c = Char.ofNat 96 then "&#96;".data
  else [c]

/-- Character-wise extension of `escapeChar` to a character list. -/
def escapeList : List Char → List Char
  | [] => []
  | c :: rest => escapeChar c ++ escapeList rest

/-- Model of `validator.escape` on whole strings. -/
def validatorEscape (s : String) : String :=
  String.mk (escapeList s.data)

/-- Maximum content length enforced by the sanitizer and the validator
(10,000 characters in the source). -/
def maxMessageLength : Nat := 10000

/-- Embedding of `sanitizeInput` from `src/utils/sanitize.ts`: trim, escape
HTML, then truncate to `maxMessageLength` characters
(`sanitized.substring(0, 10000)`). -/
def sanitizeInput (input : String) : String :=
  let trimmed := jsTrim input
  let sanitized := validatorEscape trimmed
  if sanitized.length > maxMessageLength then
    String.mk (sanitized.data.take maxMessageLength)
  else sanitized

/-- Embedding of `validateMessage` from `src/utils/sanitize.ts`.  The
JavaScript guard `!message || typeof message !== "string"` specialises, on
string inputs, to the test `message = ""` (the empty string is the only
falsy string). -/
def validateMessage (message : String) : Bool :=
  if message = "" then false
  else if (jsTrim message).length = 0 then false
  else if message.length > maxMessageLength then false
  else true


/-- The resolved messages directory (`path.join(__dirname, "../../messages")`);
its concrete value is irrelevant to every claim, only its role as a fixed
path head matters. -/
def messagesDir : String := "messages"

/-- The path built by both `saveMessage` and `readAndDeleteMessage`:
`path.join(messagesDir, messageId + ".txt")`.  For identifiers free of
path separators and dot segments (the only ones used in this development)
`path.join` is plain concatenation with a single separator. -/
def filePath (messageId : String) : String :=
  messagesDir ++ "/" ++ messageId ++ ".txt"

/-- Look a path up in the association-list filesystem. -/
def fsLookup : String → List (String × String) → Option String
  | _, [] => none
  | p, (q, c) :: rest => if q = p then some c else fsLookup p rest

/-- Remove a path from the association-list filesystem (`fs.unlink`). -/
def fsErase : String → List (String × String) → List (String × String)
  | _, [] => []
  | p, (q, c) :: rest =>
    if q = p then fsErase p rest else (q, c) :: fsErase p rest

/-- State of the backing medium: the stored files, plus the set of paths on
which the medium rejects read/unlink operations (permission errors and the
like), which the source's `catch` block absorbs. -/
structure FsState where
  files : List (String × String)
  failing : List String
deriving DecidableEq, Repr

/-- Embedding of `saveMessage` from `src/utils/fileManager.ts`.  The
`uuidv4()` call is nondeterministic, so the generated identifier is passed
as an argument; `fs.writeFile` overwrites any previous file at the same
path.  Returns the new state together with the returned message id. -/
def saveMessage (st : FsState) (uuid : String) (content : String) :
    FsState × String :=
  ({ st with files :=
      (filePath uuid, content) :: fsErase (filePath uuid) st.files }, uuid)

/-- Embedding of `readAndDeleteMessage` from `src/utils/fileManager.ts`:
`fs.access` (existence check), `fs.readFile`, `fs.unlink`, returning the
content; any error in the `try` block is caught and `null` is returned.
A path in `st.failing` makes the read/unlink step throw, which the catch
turns into `none` with the file left in place. -/
def readAndDeleteMessage (st : FsState) (messageId : String) :
    Option String × FsState :=
  match fsLookup (filePath messageId) st.files with
  | none => (none, st)
  | some content =>
    if filePath messageId ∈ st.failing then (none, st)
    else (some content,
      { st with files := fsErase (filePath messageId) st.files })

/-- Is `c` a hexadecimal digit of either case? -/
def hexDigit (c : Char) : Bool :=
  (('0' ≤ c) && (c ≤ '9')) || (('a' ≤ c) && (c ≤ 'f')) ||
  (('A' ≤ c) && (c ≤ 'F'))

/-- Embedding of `isValidMessageId` from `src/utils/fileManager.ts`: the
case-insensitive anchored regex
`^[0-9a-f]{8}-[0-9a-f]{4}-4[0-9a-f]{3}-[89ab][0-9a-f]{3}-[0-9a-f]{12}$`,
read off position by position: length 36, hyphens at indices 8, 13, 18
and 23, the character `4` at index 14, one of `8`, `9`, `a`, `b` (either
case) at index 19, and hexadecimal digits everywhere else. -/
def isValidMessageId (s : String) : Bool :=
  let l := s.data
  l.length == 36 && (List.range 36).all fun i =>
    let c := l.getD i ' '
    if i = 8 ∨ i = 13 ∨ i = 18 ∨ i = 23 then c == '-'
    else if i = 14 then c == '4'
    else if i = 19 then
      c == '8' || c == '9' || c == 'a' || c == 'b' || c == 'A' || c == 'B'
    else hexDigit c


/-- Embedding of the `GET /message/:id` handler: render `Miss`
(`message: null`) when the id fails `isValidMessageId`, otherwise call
`readAndDeleteMessage` and render its result. -/
def messageRoute (st : FsState) (id : String) : Option String × FsState :=
  if isValidMessageId id then readAndDeleteMessage st id
  else (none, st)

/-- Embedding of the `POST /create` handler: reject (HTTP 400, here
`none`) when `validateMessage` fails, otherwise sanitize and save,
returning the message id of the generated link. -/
def createRoute (st : FsState) (uuid : String) (message : String) :
    Option String × FsState :=
  if validateMessage message then
    let r := saveMessage st uuid (sanitizeInput message)
    (some r.2, r.1)
  else (none, st)

/-- A string of exactly 10,001 copies of the letter a. -/
def overLongMessage : String := String.mk (List.replicate 10001 'a')

/-- A string of exactly 10,000 copies of the letter a. -/
def maxLengthMessage : String := String.mk (List.replicate 10000 'a')

/-- An operation of the system touching the store: a `POST /create` style
save under a generated identifier, or a `GET /message/:id` style consume. -/
inductive SysOp where
  | save (uuid content : String)
  | consume (id : String)
deriving DecidableEq, Repr

/-- Apply one operation to the backing medium. -/
def applyOp (st : FsState) : SysOp → FsState
  | SysOp.save u c => (saveMessage st u c).1
  | SysOp.consume i => (readAndDeleteMessage st i).2

/-- Apply a sequence of operations to the backing medium. -/
def applyOps (st : FsState) (ops : List SysOp) : FsState :=
  ops.foldl applyOp st


/-- The structural guarantees carried by an accepted message identifier:
exact length 36, hyphens at the four fixed UUID positions and hexadecimal
digits everywhere else, hence no path separator, no backslash, no dot and
no NUL anywhere in the identifier; consequently the file path built from
it is the messages directory followed by a single separator and a
separator-free file name. -/
def validIdShape (id : String) : Prop :=
  id.length = 36 ∧
  (∀ i, i < 36 →
    ((i = 8 ∨ i = 13 ∨ i = 18 ∨ i = 23) → id.data.getD i ' ' = '-') ∧
    (¬(i = 8 ∨ i = 13 ∨ i = 18 ∨ i = 23) →
      hexDigit (id.data.getD i ' ') = true)) ∧
  (∀ c ∈ id.data, hexDigit c = true ∨ c = '-') ∧
  '/' ∉ id.data ∧ Char.ofNat 92 ∉ id.data ∧ '.' ∉ id.data ∧
  Char.ofNat 0 ∉ id.data ∧
  (filePath id).data = messagesDir.data ++ '/' :: (id.data ++ ".txt".data) ∧
  (∀ c ∈ id.data ++ ".txt".data, c ≠ '/')


variable {n : Nat}

/-- Interleaving state of `n` concurrent `readAndDeleteMessage` calls on
one key: whether the entry is still live, each caller's program counter,
and each caller's returned value (`none` while still running, then
`some r` where `r` is the `string | null` result). -/
structure ConsumeState (n : Nat) where
  live : Bool
  pc : Fin n → Nat
  res : Fin n → Option (Option String)

/-- One atomic filesystem step of caller `i`: `fs.access` at counter 0,
`fs.readFile` at counter 1, `fs.unlink` at counter 2.  A step on an
absent entry throws, the catch block returns `null`; the unlink on a
live entry removes it and the caller returns the content `m`. -/
def consumeStep (m : String) (s : ConsumeState n) (i : Fin n) :
    ConsumeState n :=
  if s.pc i = 0 then
    if s.live then { s with pc := Function.update s.pc i 1 }
    else { s with pc := Function.update s.pc i 3,
                  res := Function.update s.res i (some none) }
  else if s.pc i = 1 then
    if s.live then { s with pc := Function.update s.pc i 2 }
    else { s with pc := Function.update s.pc i 3,
                  res := Function.update s.res i (some none) }
  else if s.pc i = 2 then
    if s.live then
      { live := false, pc := Function.update s.pc i 3,
        res := Function.update s.res i (some (some m)) }
    else { s with pc := Function.update s.pc i 3,
                  res := Function.update s.res i (some none) }
  else s

/-- Run a schedule: an arbitrary interleaving of the callers' steps. -/
def consumeRun (m : String) : ConsumeState n → List (Fin n) → ConsumeState n
  | s, [] => s
  | s, i :: rest => consumeRun m (consumeStep m s i) rest

/-- Initial state: the entry is live, no caller has taken a step. -/
def consumeInit (n : Nat) : ConsumeState n :=
  ⟨true, fun _ => 0, fun _ => none⟩

/-- Inductive invariant of the race: a caller has returned exactly when
its counter is 3; every returned value is the content or `null`; while
the entry is live nobody has returned, and once it is absent exactly one
caller holds the content. -/
def ConsumeInv (m : String) (s : ConsumeState n) : Prop :=
  (∀ i, s.pc i = 3 ↔ (s.res i).isSome = true) ∧
  (∀ i r, s.res i = some r → r = none ∨ r = some m) ∧
  (if s.live then ∀ i, s.pc i ≠ 3
   else ∃ w, s.res w = some (some m) ∧
     ∀ i, s.res i = some (some m) → i = w)

/-! ## Theorems -/


theorem escapeChar_no_markup (d : Char) :
    '<' ∉ escapeChar d ∧ '>' ∉ escapeChar d := by
  unfold escapeChar
  repeat' split
  all_goals first
    | exact ⟨by decide, by decide⟩
    | (rename_i h1 h2 h3 h4 h5 h6 h7 h8
       refine ⟨?_, ?_⟩ <;> intro hm <;> simp at hm
       · exact h4 hm.symm
       · exact h5 hm.symm)

theorem mem_escapeList {c : Char} {l : List Char} (h : c ∈ escapeList l) :
    ∃ d ∈ l, c ∈ escapeChar d := by
  induction l with
  | nil => simp [escapeList] at h
  | cons a rest ih =>
    rw [escapeList] at h
    rcases List.mem_append.mp h with h' | h'
    · exact ⟨a, List.mem_cons_self a rest, h'⟩
    · obtain ⟨d, hd, hc⟩ := ih h'
      exact ⟨d, List.mem_cons_of_mem a hd, hc⟩

/-- C6: for every input string, the output of `sanitizeInput` contains no
literal `<` and no literal `>`: every markup-significant character of the
trimmed input is replaced by its escaped encoding, and the property
survives the final truncation to the maximum length. -/
theorem sanitizeInput_no_markup_chars (s : String) :
    '<' ∉ (validatorEscape (jsTrim s)).data ∧
    '>' ∉ (validatorEscape (jsTrim s)).data ∧
    '<' ∉ (sanitizeInput s).data ∧
    '>' ∉ (sanitizeInput s).data := by
  have hesc : ∀ c : Char, c ∈ (validatorEscape (jsTrim s)).data →
      c ≠ '<' ∧ c ≠ '>' := by
    intro c hc
    obtain ⟨d, _, hcd⟩ := mem_escapeList hc
    obtain ⟨hlt, hgt⟩ := escapeChar_no_markup d
    constructor
    · intro he; exact hlt (he ▸ hcd)
    · intro he; exact hgt (he ▸ hcd)
  have hsan : ∀ c : Char, c ∈ (sanitizeInput s).data →
      c ∈ (validatorEscape (jsTrim s)).data := by
    intro c hc
    unfold sanitizeInput at hc
    by_cases hlen :
        (validatorEscape (jsTrim s)).length > maxMessageLength
    · rw [if_pos hlen] at hc
      exact List.mem_of_mem_take hc
    · rwa [if_neg hlen] at hc
  refine ⟨?_, ?_, ?_, ?_⟩
  · intro h; exact (hesc _ h).1 rfl
  · intro h; exact (hesc _ h).2 rfl
  · intro h; exact (hesc _ (hsan _ h)).1 rfl
  · intro h; exact (hesc _ (hsan _ h)).2 rfl

/-- C7: sanitization is not idempotent: escaping an already-escaped string
double-escapes the ampersands it introduced. -/
theorem sanitizeInput_not_idempotent :
    ∃ x : String, sanitizeInput (sanitizeInput x) ≠ sanitizeInput x :=
  ⟨"&", by decide⟩

theorem sanitizeInput_length_le (s : String) :
    (sanitizeInput s).length ≤ maxMessageLength := by
  unfold sanitizeInput
  by_cases h : (validatorEscape (jsTrim s)).length > maxMessageLength
  · rw [if_pos h]
    show (List.take maxMessageLength _).length ≤ maxMessageLength
    rw [List.length_take]
    exact min_le_left _ _
  · rw [if_neg h]
    exact Nat.le_of_not_lt h

/-- C8: every content string handed to storage by the create path
(`validateMessage`, then `sanitizeInput`, then `saveMessage`) has length at
most 10,000 characters: the stored content is exactly the sanitized
message, and sanitization truncates after escaping. -/
theorem createRoute_stores_bounded_content (st : FsState)
    (uuid message : String) (h : validateMessage message = true) :
    fsLookup (filePath uuid) ((createRoute st uuid message).2).files
      = some (sanitizeInput message) ∧
    (sanitizeInput message).length ≤ 10000 := by
  constructor
  · simp [createRoute, h, saveMessage, fsLookup]
  · exact sanitizeInput_length_le message

theorem createRoute_stores_bounded_content_witness :
    validateMessage "hi" = true ∧
    (fsLookup (filePath "u") ((createRoute ⟨[], []⟩ "u" "hi").2).files
      = some (sanitizeInput "hi") ∧
    (sanitizeInput "hi").length ≤ 10000) :=
  ⟨by decide, createRoute_stores_bounded_content ⟨[], []⟩ "u" "hi" (by decide)⟩

/-- C9: `validateMessage` rejects every string longer than 10,000
characters and accepts every string of exactly 10,000 characters that is
non-empty after trimming. -/
theorem validateMessage_length_enforcement (s : String) :
    (s.length > maxMessageLength → validateMessage s = false) ∧
    (s.length = maxMessageLength → (jsTrim s).length ≠ 0 →
      validateMessage s = true) := by
  constructor
  · intro h
    unfold validateMessage
    repeat' split
    all_goals simp_all
  · intro hlen htrim
    have hne : ¬s = "" := by
      intro he
      rw [he] at hlen
      simp [maxMessageLength, String.length] at hlen
    unfold validateMessage
    rw [if_neg hne, if_neg htrim, if_neg (by rw [hlen]; exact lt_irrefl _)]

theorem dropWhile_replicate_of_not {p : Char → Bool} {c : Char}
    (h : p c = false) (n : Nat) :
    List.dropWhile p (List.replicate n c) = List.replicate n c := by
  cases n with
  | zero => rfl
  | succ n => simp [List.replicate_succ, List.dropWhile_cons, h]

theorem trimList_replicate {c : Char} (h : jsWhitespace c = false) (n : Nat) :
    trimList (List.replicate n c) = List.replicate n c := by
  unfold trimList
  rw [dropWhile_replicate_of_not h, List.reverse_replicate,
    dropWhile_replicate_of_not h, List.reverse_replicate]

theorem validateMessage_length_enforcement_witness :
    overLongMessage.length > maxMessageLength ∧
    validateMessage overLongMessage = false ∧
    maxLengthMessage.length = maxMessageLength ∧
    (jsTrim maxLengthMessage).length ≠ 0 ∧
    validateMessage maxLengthMessage = true := by
  have h1 : overLongMessage.length > maxMessageLength := by
    show (List.replicate 10001 'a').length > maxMessageLength
    rw [List.length_replicate]
    decide
  have h2 : maxLengthMessage.length = maxMessageLength := by
    show (List.replicate 10000 'a').length = maxMessageLength
    rw [List.length_replicate]
    rfl
  have h3 : (jsTrim maxLengthMessage).length ≠ 0 := by
    show (trimList (List.replicate 10000 'a')).length ≠ 0
    rw [trimList_replicate (by decide) 10000, List.length_replicate]
    decide
  exact ⟨h1, (validateMessage_length_enforcement overLongMessage).1 h1,
    h2, h3, (validateMessage_length_enforcement maxLengthMessage).2 h2 h3⟩


theorem fsLookup_cons_self (p c : String) (l : List (String × String)) :
    fsLookup p ((p, c) :: l) = some c := by
  simp [fsLookup]

theorem fsLookup_cons_ne {q p : String} (h : q ≠ p) (c : String)
    (l : List (String × String)) :
    fsLookup p ((q, c) :: l) = fsLookup p l := by
  simp [fsLookup, h]

theorem fsLookup_fsErase_self (p : String) (l : List (String × String)) :
    fsLookup p (fsErase p l) = none := by
  induction l with
  | nil => rfl
  | cons e rest ih =>
    by_cases h : e.1 = p
    · simpa [fsErase, h] using ih
    · simpa [fsErase, h, fsLookup] using ih

theorem fsLookup_fsErase_ne {q p : String} (h : q ≠ p)
    (l : List (String × String)) :
    fsLookup p (fsErase q l) = fsLookup p l := by
  induction l with
  | nil => rfl
  | cons e rest ih =>
    by_cases he : e.1 = q
    · rw [fsErase, if_pos he, ih, fsLookup, if_neg (he ▸ h)]
    · rw [fsErase, if_neg he, fsLookup, fsLookup]
      by_cases hp : e.1 = p
      · rw [if_pos hp, if_pos hp]
      · rw [if_neg hp, if_neg hp, ih]

theorem fsLookup_fsErase_none {p : String} (q : String)
    {l : List (String × String)} (h : fsLookup p l = none) :
    fsLookup p (fsErase q l) = none := by
  by_cases hqp : q = p
  · rw [hqp]; exact fsLookup_fsErase_self p l
  · rw [fsLookup_fsErase_ne hqp]; exact h

theorem filePath_inj {a b : String} (h : filePath a = filePath b) : a = b := by
  have hd : (filePath a).data = (filePath b).data := by rw [h]
  simp only [filePath, messagesDir, String.data_append, String.data] at hd
  simp only [List.cons_append, List.nil_append, List.cons.injEq,
    true_and] at hd
  have h3 := (List.append_left_inj _).mp hd
  cases a with
  | mk la =>
    cases b with
    | mk lb => exact congrArg String.mk h3

/-- A successful consume certifies that the entry was live, the medium did
not fail, and the result state removed exactly this entry. -/
theorem readAndDeleteMessage_success {st : FsState} {i c : String}
    {st' : FsState} (h : readAndDeleteMessage st i = (some c, st')) :
    fsLookup (filePath i) st.files = some c ∧
    filePath i ∉ st.failing ∧
    st' = { st with files := fsErase (filePath i) st.files } := by
  unfold readAndDeleteMessage at h
  split at h
  · simp at h
  · rename_i content heq
    split at h
    · simp at h
    · rename_i hf
      obtain ⟨hc, hst⟩ := Prod.mk.injEq _ _ _ _ ▸ h
      obtain rfl : content = c := Option.some.injEq _ _ ▸ hc
      exact ⟨heq, hf, hst.symm⟩

/-- The state after any consume is either unchanged or has exactly the
consumed entry erased. -/
theorem readAndDeleteMessage_snd (st : FsState) (i : String) :
    (readAndDeleteMessage st i).2 = st ∨
    (readAndDeleteMessage st i).2
      = { st with files := fsErase (filePath i) st.files } := by
  unfold readAndDeleteMessage
  cases fsLookup (filePath i) st.files with
  | none => left; rfl
  | some c =>
    by_cases hf : filePath i ∈ st.failing
    · left; simp [hf]
    · right; simp [hf]

/-- C2 counterexample: `readAndDeleteMessage` performs no structural check
on the key — for the malformed key `"not-a-real-token"` (rejected by
`isValidMessageId`) it still consults the backing medium, and when a
matching storage unit exists it returns the content instead of `Miss`. -/
theorem readAndDeleteMessage_no_internal_check_counterexample :
    isValidMessageId "not-a-real-token" = false ∧
    (readAndDeleteMessage
      ⟨[(filePath "not-a-real-token", "secret")], []⟩
      "not-a-real-token").1 = some "secret" := by decide

/-- C2 amended: the structural well-formedness check is enforced only by
the gateway route — `GET /message/:id` returns the `Miss` rendering with
the store untouched whenever `isValidMessageId` rejects the id, while
`readAndDeleteMessage` itself never validates the key. -/
theorem messageRoute_rejects_malformed (st : FsState) (id : String)
    (h : isValidMessageId id = false) :
    messageRoute st id = (none, st) := by
  simp [messageRoute, h]

theorem messageRoute_rejects_malformed_witness :
    isValidMessageId "not-a-real-token" = false ∧
    messageRoute ⟨[(filePath "not-a-real-token", "secret")], []⟩
      "not-a-real-token"
      = (none, ⟨[(filePath "not-a-real-token", "secret")], []⟩) :=
  ⟨by decide, messageRoute_rejects_malformed _ _ (by decide)⟩

/-- C3 counterexample: a backing-medium failure during consume of a live
entry (the path is readable by lookup but the medium rejects the
read/unlink) yields the same observable result `none` as a key that never
existed — the storage failure is silently reported as `Miss`. -/
theorem storage_failure_reported_as_miss_counterexample :
    fsLookup (filePath "k3")
      [(filePath "k3", "secret")] = some "secret" ∧
    (readAndDeleteMessage
      ⟨[(filePath "k3", "secret")], [filePath "k3"]⟩ "k3")
      = (none, ⟨[(filePath "k3", "secret")], [filePath "k3"]⟩) ∧
    (readAndDeleteMessage ⟨[], []⟩ "k3").1 = none := by decide

/-- C3 amended: when the backing medium rejects the read or the remove
during a consume of a live entry, the source's catch-all returns `null`:
`readAndDeleteMessage` reports every storage failure as `Miss`, leaving
the entry in place; no distinct error surfaces to the caller. -/
theorem readAndDeleteMessage_failure_is_miss (st : FsState) (id c : String)
    (hlive : fsLookup (filePath id) st.files = some c)
    (hfail : filePath id ∈ st.failing) :
    readAndDeleteMessage st id = (none, st) := by
  simp [readAndDeleteMessage, hlive, hfail]

theorem readAndDeleteMessage_failure_is_miss_witness :
    fsLookup (filePath "k3b") [(filePath "k3b", "s")] = some "s" ∧
    filePath "k3b" ∈ [filePath "k3b"] ∧
    readAndDeleteMessage ⟨[(filePath "k3b", "s")], [filePath "k3b"]⟩ "k3b"
      = (none, ⟨[(filePath "k3b", "s")], [filePath "k3b"]⟩) :=
  ⟨by decide, by decide,
    readAndDeleteMessage_failure_is_miss _ "k3b" "s" (by decide) (by decide)⟩

/-- C4: sequential round trip — after `saveMessage` stores content under a
fresh identifier (on a path the medium does not fail on), the first
`readAndDeleteMessage` with that identifier returns exactly the stored
content and the immediately following one returns `Miss`. -/
theorem saveMessage_readAndDeleteMessage_round_trip (st : FsState)
    (uuid content : String) (hok : filePath uuid ∉ st.failing) :
    (readAndDeleteMessage (saveMessage st uuid content).1 uuid).1
      = some content ∧
    (readAndDeleteMessage
      (readAndDeleteMessage (saveMessage st uuid content).1 uuid).2
      uuid).1 = none := by
  unfold saveMessage readAndDeleteMessage
  simp [fsLookup_cons_self, hok, fsLookup_fsErase_self]

theorem saveMessage_readAndDeleteMessage_round_trip_witness :
    filePath "k4" ∉ (⟨[], []⟩ : FsState).failing ∧
    ((readAndDeleteMessage (saveMessage ⟨[], []⟩ "k4" "hello").1 "k4").1
      = some "hello" ∧
    (readAndDeleteMessage
      (readAndDeleteMessage (saveMessage ⟨[], []⟩ "k4" "hello").1 "k4").2
      "k4").1 = none) :=
  ⟨by decide,
    saveMessage_readAndDeleteMessage_round_trip ⟨[], []⟩ "k4" "hello"
      (by decide)⟩

theorem fsLookup_applyOps_none {k : String} {st : FsState}
    (ops : List SysOp)
    (habs : fsLookup (filePath k) st.files = none)
    (hfresh : ∀ u c, SysOp.save u c ∈ ops → u ≠ k) :
    fsLookup (filePath k) (applyOps st ops).files = none := by
  induction ops generalizing st with
  | nil => exact habs
  | cons op rest ih =>
    have hrest : ∀ u c, SysOp.save u c ∈ rest → u ≠ k :=
      fun u c hm => hfresh u c (List.mem_cons_of_mem op hm)
    have hstep : fsLookup (filePath k) (applyOp st op).files = none := by
      cases op with
      | save u c =>
        have hne : filePath u ≠ filePath k := by
          intro he
          exact hfresh u c (List.mem_cons_self _ _) (filePath_inj he)
        rw [applyOp]
        show fsLookup (filePath k)
          ((filePath u, c) :: fsErase (filePath u) st.files) = none
        rw [fsLookup_cons_ne hne, fsLookup_fsErase_ne hne]
        exact habs
      | consume i =>
        rw [applyOp]
        rcases readAndDeleteMessage_snd st i with hsnd | hsnd
        · rw [hsnd]; exact habs
        · rw [hsnd]; exact fsLookup_fsErase_none _ habs
    exact ih hstep hrest

/-- C5: no resurrection — once a `readAndDeleteMessage` call has removed
an entry and returned its content, the key's storage unit stays absent
through every later sequence of system operations (saves under the fresh
identifiers the generator produces, and consumes of any keys), and every
later `readAndDeleteMessage` with that key returns `Miss`. -/
theorem readAndDeleteMessage_no_resurrection (st : FsState)
    (k c : String) (st' : FsState)
    (hcons : readAndDeleteMessage st k = (some c, st'))
    (ops : List SysOp)
    (hfresh : ∀ u cc, SysOp.save u cc ∈ ops → u ≠ k) :
    fsLookup (filePath k) (applyOps st' ops).files = none ∧
    (readAndDeleteMessage (applyOps st' ops) k).1 = none := by
  have habs : fsLookup (filePath k) st'.files = none := by
    obtain ⟨-, -, hst⟩ := readAndDeleteMessage_success hcons
    rw [hst]
    exact fsLookup_fsErase_self _ _
  have hmain := fsLookup_applyOps_none ops habs hfresh
  exact ⟨hmain, by simp [readAndDeleteMessage, hmain]⟩

theorem readAndDeleteMessage_no_resurrection_witness :
    readAndDeleteMessage ⟨[(filePath "k5", "c5")], []⟩ "k5"
      = (some "c5", (⟨[], []⟩ : FsState)) ∧
    (fsLookup (filePath "k5")
      (applyOps ⟨[], []⟩ [SysOp.consume "k5", SysOp.consume "zz"]).files
        = none ∧
    (readAndDeleteMessage
      (applyOps ⟨[], []⟩ [SysOp.consume "k5", SysOp.consume "zz"])
      "k5").1 = none) :=
  ⟨by decide,
    readAndDeleteMessage_no_resurrection ⟨[(filePath "k5", "c5")], []⟩
      "k5" "c5" ⟨[], []⟩ (by decide)
      [SysOp.consume "k5", SysOp.consume "zz"]
      (by intro u cc hm; simp at hm)⟩

/-- C10: every identifier accepted by `isValidMessageId` has the fixed
36-character hex-and-hyphen shape of a version-4 UUID, so the path
`readAndDeleteMessage` builds from it names a direct child of the
messages directory — accepted identifiers cannot traverse outside it. -/
theorem isValidMessageId_shape (id : String)
    (h : isValidMessageId id = true) : validIdShape id := by
  unfold isValidMessageId at h
  simp only [Bool.and_eq_true] at h
  obtain ⟨hlen', hall'⟩ := h
  have hlen : id.data.length = 36 := beq_iff_eq.mp hlen'
  have hall := List.all_eq_true.mp hall'
  have hpos : ∀ i, i < 36 →
      ((i = 8 ∨ i = 13 ∨ i = 18 ∨ i = 23) → id.data.getD i ' ' = '-') ∧
      (¬(i = 8 ∨ i = 13 ∨ i = 18 ∨ i = 23) →
        hexDigit (id.data.getD i ' ') = true) := by
    intro i hi
    have hfi : (if i = 8 ∨ i = 13 ∨ i = 18 ∨ i = 23 then
          id.data.getD i ' ' == '-'
        else if i = 14 then id.data.getD i ' ' == '4'
        else if i = 19 then
          (id.data.getD i ' ' == '8' || id.data.getD i ' ' == '9' ||
           id.data.getD i ' ' == 'a' || id.data.getD i ' ' == 'b' ||
           id.data.getD i ' ' == 'A' || id.data.getD i ' ' == 'B')
        else hexDigit (id.data.getD i ' ')) = true :=
      hall i (List.mem_range.mpr hi)
    constructor
    · intro hp
      rw [if_pos hp] at hfi
      exact beq_iff_eq.mp hfi
    · intro hn
      rw [if_neg hn] at hfi
      by_cases h14 : i = 14
      · rw [if_pos h14] at hfi
        rw [beq_iff_eq.mp hfi]
        decide
      · rw [if_neg h14] at hfi
        by_cases h19 : i = 19
        · rw [if_pos h19] at hfi
          simp only [Bool.or_eq_true, beq_iff_eq] at hfi
          generalize id.data.getD i ' ' = c at hfi ⊢
          rcases hfi with ((((rfl | rfl) | rfl) | rfl) | rfl) | rfl <;> decide
        · rwa [if_neg h19] at hfi
  have hmem : ∀ c ∈ id.data, hexDigit c = true ∨ c = '-' := by
    intro c hc
    obtain ⟨i, hi, hgi⟩ := List.mem_iff_getElem.mp hc
    have hi36 : i < 36 := hlen ▸ hi
    have hgd : id.data.getD i ' ' = c := by
      rw [List.getD_eq_getElem id.data ' ' hi, hgi]
    by_cases hp : i = 8 ∨ i = 13 ∨ i = 18 ∨ i = 23
    · right
      rw [← hgd]
      exact (hpos i hi36).1 hp
    · left
      rw [← hgd]
      exact (hpos i hi36).2 hp
  have hno : ∀ c ∈ id.data, c ≠ '/' ∧ c ≠ Char.ofNat 92 ∧ c ≠ '.' ∧
      c ≠ Char.ofNat 0 := by
    intro c hc
    rcases hmem c hc with hx | hd
    · refine ⟨?_, ?_, ?_, ?_⟩ <;> intro he <;> rw [he] at hx <;>
        exact absurd hx (by decide)
    · rw [hd]
      refine ⟨by decide, by decide, by decide, by decide⟩
  refine ⟨hlen, hpos, hmem, ?_, ?_, ?_, ?_, ?_, ?_⟩
  · intro h'; exact (hno _ h').1 rfl
  · intro h'; exact (hno _ h').2.1 rfl
  · intro h'; exact (hno _ h').2.2.1 rfl
  · intro h'; exact (hno _ h').2.2.2 rfl
  · simp [filePath, messagesDir, String.data_append]
  · intro c hc
    rcases List.mem_append.mp hc with h' | h'
    · exact (hno _ h').1
    · simp only [String.data] at h'
      fin_cases h' <;> decide

theorem isValidMessageId_shape_witness :
    isValidMessageId "9f1b2c3d-4e5f-4a6b-8c7d-0123456789ab" = true ∧
    validIdShape "9f1b2c3d-4e5f-4a6b-8c7d-0123456789ab" :=
  ⟨by decide, isValidMessageId_shape _ (by decide)⟩

theorem consumeInv_missStep (m : String) (s : ConsumeState n) (i : Fin n)
    (h : ConsumeInv m s) (hlive : s.live = false) (hpc : s.pc i ≠ 3) :
    ConsumeInv m { s with pc := Function.update s.pc i 3,
                          res := Function.update s.res i (some none) } := by
  obtain ⟨h1, h2, h3⟩ := h
  rw [if_neg (by rw [hlive]; decide)] at h3
  obtain ⟨w, hw, hu⟩ := h3
  refine ⟨?_, ?_, ?_⟩ <;> dsimp only
  · intro j
    by_cases hj : j = i
    · subst hj
      simp [Function.update_same]
    · simp [Function.update_noteq hj]
      exact h1 j
  · intro j r hr
    by_cases hj : j = i
    · subst hj
      rw [Function.update_same] at hr
      exact Or.inl (Option.some.injEq _ _ ▸ hr).symm
    · rw [Function.update_noteq hj] at hr
      exact h2 j r hr
  · rw [if_neg (by rw [hlive]; decide)]
    refine ⟨w, ?_, ?_⟩
    · have hwi : w ≠ i := by
        intro he
        exact hpc ((h1 i).mpr (by rw [← he, hw]; rfl))
      rw [Function.update_noteq hwi]
      exact hw
    · intro j hj
      by_cases hji : j = i
      · subst hji
        rw [Function.update_same] at hj
        simp at hj
      · rw [Function.update_noteq hji] at hj
        exact hu j hj

theorem consumeInv_advanceStep (m : String) (s : ConsumeState n) (i : Fin n)
    (k : Nat) (hk : k ≠ 3) (h : ConsumeInv m s) (hpc : s.pc i ≠ 3) :
    ConsumeInv m { s with pc := Function.update s.pc i k } := by
  obtain ⟨h1, h2, h3⟩ := h
  have hres : (s.res i).isSome = false := by
    cases hsi : (s.res i).isSome
    · rfl
    · exact absurd ((h1 i).mpr hsi) hpc
  refine ⟨?_, h2, ?_⟩ <;> dsimp only
  · intro j
    by_cases hj : j = i
    · subst hj
      rw [Function.update_same, hres]
      simp [hk]
    · rw [Function.update_noteq hj]
      exact h1 j
  · by_cases hl : s.live = true
    · rw [if_pos hl] at h3 ⊢
      intro j
      by_cases hj : j = i
      · subst hj
        rw [Function.update_same]
        exact hk
      · rw [Function.update_noteq hj]
        exact h3 j
    · rw [if_neg hl] at h3 ⊢
      exact h3

theorem consumeInv_winStep (m : String) (s : ConsumeState n) (i : Fin n)
    (h : ConsumeInv m s) (hlive : s.live = true) :
    ConsumeInv m { live := false, pc := Function.update s.pc i 3,
                   res := Function.update s.res i (some (some m)) } := by
  obtain ⟨h1, h2, h3⟩ := h
  rw [if_pos hlive] at h3
  refine ⟨?_, ?_, ?_⟩ <;> dsimp only
  · intro j
    by_cases hj : j = i
    · subst hj
      simp [Function.update_same]
    · simp [Function.update_noteq hj]
      exact h1 j
  · intro j r hr
    by_cases hj : j = i
    · subst hj
      rw [Function.update_same] at hr
      exact Or.inr (Option.some.injEq _ _ ▸ hr).symm
    · rw [Function.update_noteq hj] at hr
      exact h2 j r hr
  · rw [if_neg (by decide)]
    refine ⟨i, Function.update_same i _ _, ?_⟩
    intro j hj
    by_cases hji : j = i
    · exact hji
    · rw [Function.update_noteq hji] at hj
      exact absurd ((h1 j).mpr (by rw [hj]; rfl)) (h3 j)

theorem consumeInv_step (m : String) (s : ConsumeState n) (i : Fin n)
    (h : ConsumeInv m s) : ConsumeInv m (consumeStep m s i) := by
  have hbool : s.live = true ∨ s.live = false := by
    cases s.live
    · exact Or.inr rfl
    · exact Or.inl rfl
  unfold consumeStep
  by_cases hp0 : s.pc i = 0
  · rw [if_pos hp0]
    rcases hbool with hl | hl
    · rw [if_pos hl]
      exact consumeInv_advanceStep m s i 1 (by decide) h (by omega)
    · rw [if_neg (by rw [hl]; decide)]
      exact consumeInv_missStep m s i h hl (by omega)
  · rw [if_neg hp0]
    by_cases hp1 : s.pc i = 1
    · rw [if_pos hp1]
      rcases hbool with hl | hl
      · rw [if_pos hl]
        exact consumeInv_advanceStep m s i 2 (by decide) h (by omega)
      · rw [if_neg (by rw [hl]; decide)]
        exact consumeInv_missStep m s i h hl (by omega)
    · rw [if_neg hp1]
      by_cases hp2 : s.pc i = 2
      · rw [if_pos hp2]
        rcases hbool with hl | hl
        · rw [if_pos hl]
          exact consumeInv_winStep m s i h hl
        · rw [if_neg (by rw [hl]; decide)]
          exact consumeInv_missStep m s i h hl (by omega)
      · rw [if_neg hp2]
        exact h

theorem consumeInv_run (m : String) (sched : List (Fin n))
    (s : ConsumeState n) (h : ConsumeInv m s) :
    ConsumeInv m (consumeRun m s sched) := by
  induction sched generalizing s with
  | nil => exact h
  | cons i rest ih => exact ih _ (consumeInv_step m s i h)

theorem consumeInv_init (m : String) (n : Nat) :
    ConsumeInv m (consumeInit n) := by
  refine ⟨?_, ?_, ?_⟩ <;> dsimp only [consumeInit]
  · intro i
    simp
  · intro i r hr
    simp at hr
  · rw [if_pos rfl]
    intro i
    decide

/-- C1: single delivery under arbitrary interleaving — across any
schedule of `n` concurrent `readAndDeleteMessage` invocations on one key
with a live entry, every returned value is the content or `Miss`, at most
one invocation returns the content, and in every completed run with at
least one caller exactly one invocation returns the content while all
others return `Miss`. -/
theorem readAndDeleteMessage_single_delivery (n : Nat) (m : String)
    (sched : List (Fin n)) :
    (∀ i r, (consumeRun m (consumeInit n) sched).res i = some r →
      r = none ∨ r = some m) ∧
    (∀ i j, (consumeRun m (consumeInit n) sched).res i = some (some m) →
      (consumeRun m (consumeInit n) sched).res j = some (some m) → i = j) ∧
    ((∀ i, (consumeRun m (consumeInit n) sched).pc i = 3) → 0 < n →
      ∃ w, (consumeRun m (consumeInit n) sched).res w = some (some m) ∧
        ∀ i, i ≠ w →
          (consumeRun m (consumeInit n) sched).res i = some none) := by
  obtain ⟨h1, h2, h3⟩ :=
    consumeInv_run m sched (consumeInit n) (consumeInv_init m n)
  refine ⟨h2, ?_, ?_⟩
  · intro i j hi hj
    by_cases hl : (consumeRun m (consumeInit n) sched).live = true
    · rw [if_pos hl] at h3
      exact absurd ((h1 i).mpr (by rw [hi]; rfl)) (h3 i)
    · rw [if_neg hl] at h3
      obtain ⟨w, hw, hu⟩ := h3
      rw [hu i hi, hu j hj]
  · intro hall hn
    have hlf : ¬((consumeRun m (consumeInit n) sched).live = true) := by
      intro hl
      rw [if_pos hl] at h3
      exact h3 ⟨0, hn⟩ (hall ⟨0, hn⟩)
    rw [if_neg hlf] at h3
    obtain ⟨w, hw, hu⟩ := h3
    refine ⟨w, hw, ?_⟩
    intro i hi
    have hsome : ((consumeRun m (consumeInit n) sched).res i).isSome = true :=
      (h1 i).mp (hall i)
    obtain ⟨r, hr⟩ := Option.isSome_iff_exists.mp hsome
    rcases h2 i r hr with rfl | rfl
    · exact hr
    · exact absurd (hu i hr) hi

theorem readAndDeleteMessage_single_delivery_witness :
    (∀ i : Fin 2, (consumeRun "secret" (consumeInit 2)
        [0, 1, 0, 1, 0, 1]).pc i = 3) ∧ 0 < 2 ∧
    (∃ w : Fin 2,
      (consumeRun "secret" (consumeInit 2) [0, 1, 0, 1, 0, 1]).res w
        = some (some "secret") ∧
      ∀ i, i ≠ w →
        (consumeRun "secret" (consumeInit 2) [0, 1, 0, 1, 0, 1]).res i
          = some none) :=
  ⟨by decide, by decide,
    (readAndDeleteMessage_single_delivery 2 "secret"
      [0, 1, 0, 1, 0, 1]).2.2 (by decide) (by decide)⟩

end BurnOnRead
